import Mathlib

/-!
Verification of the realtime dispatch core (`src/realtime/v2/realtime.js`).

The development shallowly embeds the dispatch pipeline: the middleware chain
runner (`runMiddleware` / `next`), the guard evaluator (`runGuards`), the
lifecycle-hook runner (`runHooks`), route registration (`registerRoutes`),
the per-message dispatcher installed by `start` via `transport.onMessage`,
and the local event bus (`internalEmit` / `off`).

Middleware, guards, handlers, hooks and event listeners are modelled by small
behaviour languages (what the function does at each step: call the
continuation, stop the context, throw, log, remove a listener, ...), and the
runners are translated statement-by-statement from the JavaScript source.
-/

namespace RealtimeSpec

/-! ## Middleware chain runner (`runMiddleware`, realtime.js lines 138-160)

A middleware is a JS function `(ctx, next) => ...`; its observable behaviour
is a finite sequence of primitive steps: invoke (and await) the continuation,
call `ctx.stop()`, throw, or perform an observable side effect (logged).  The
context carries the `stopped` flag and a ghost trace of logged effects. -/

inductive MWAct
  | callNext
  | stop
  | throwE
  | log (tag : Nat)
deriving DecidableEq, Repr

/-- A middleware: the sequence of steps its body performs. -/
abbrev MW := List MWAct

/-- The mutable message context as visible to the chain runner:
`stopped` is the flag set by `ctx.stop()`; `trace` is a ghost log of the
observable effects middleware performed, in execution order. -/
structure Ctx where
  stopped : Bool
  trace : List Nat
deriving DecidableEq, Repr

/-- The runner-local state: `i` is the `let i = -1` counter of
`runMiddleware` (last index for which `next` ran), plus the context. -/
structure RunState where
  i : Int
  ctx : Ctx
deriving DecidableEq, Repr

inductive MWErr
  | doubleContinuation  -- `throw new Error("next() llamado múltiples veces")`
  | thrown              -- an exception thrown by a middleware body
deriving DecidableEq, Repr

/-- Runs the body of one middleware given the continuation `k`
(the `() => next(j + 1)` closure).  An exception — from the body itself or
propagating out of the awaited continuation — aborts the remaining steps and
propagates; context mutations performed so far are kept. -/
def runActs (k : RunState → RunState × Option MWErr) :
    List MWAct → RunState → RunState × Option MWErr
  | [], s => (s, none)
  | .callNext :: rest, s =>
    match k s with
    | (s', none) => runActs k rest s'
    | (s', some e) => (s', some e)
  | .stop :: rest, s => runActs k rest ⟨s.i, ⟨true, s.ctx.trace⟩⟩
  | .throwE :: _, s => (s, some .thrown)
  | .log n :: rest, s => runActs k rest ⟨s.i, ⟨s.ctx.stopped, s.ctx.trace ++ [n]⟩⟩

/-- The inner `next(j)` of `runMiddleware`: `rest` is the middleware list
from index `j` on (`rest = middleware.drop j`).  Checks `j <= i`, sets
`i = j`, and runs `middleware[j]` if present, handing it the continuation
for index `j + 1`. -/
def runSuffix (j : Nat) (rest : List MW) (s : RunState) : RunState × Option MWErr :=
  if (j : Int) ≤ s.i then (s, some .doubleContinuation)
  else
    match rest with
    | [] => (⟨(j : Int), s.ctx⟩, none)
    | mw :: rest' => runActs (fun s2 => runSuffix (j + 1) rest' s2) mw ⟨(j : Int), s.ctx⟩

/-- Model of `runMiddleware(middleware, ctx)`: runs `next()` from `i = -1`; reports
`false` when the chain threw (the error is caught and logged) or when the
context ended stopped, `true` otherwise. -/
def runMiddleware (mws : List MW) (c : Ctx) : Bool × Ctx :=
  match runSuffix 0 mws ⟨-1, c⟩ with
  | (s, none) => (!s.ctx.stopped, s.ctx)
  | (s, some _) => (false, s.ctx)

/-! ## Guard evaluator (`runGuards`, realtime.js lines 110-133)

A guard returns an arbitrary JS value (or throws).  The evaluator computes
`typeof result === 'boolean' ? result : result?.allowed` and rejects when the
resulting value is falsy.  We model the JS values relevant to this
expression: primitives, and objects through their (optional) `allowed`
field. -/

inductive JSPrim
  | undefined
  | null
  | bool (b : Bool)
  | num (n : Int)
  | str (s : String)
deriving DecidableEq, Repr

/-- A guard's result value: a primitive, or an object whose `allowed`
property is absent (`none`) or holds a primitive. -/
inductive JSValue
  | prim (p : JSPrim)
  | obj (allowed : Option JSPrim)
deriving DecidableEq, Repr

/-- JS truthiness of a primitive. -/
def truthyP : JSPrim → Bool
  | .undefined => false
  | .null => false
  | .bool b => b
  | .num n => n ≠ 0
  | .str s => s ≠ ""

/-- Computes `typeof result === 'boolean' ? result : result?.allowed`, coerced by
`if (!allowed)`: booleans are used directly; every other value is replaced by
its `allowed` property (`undefined` on primitives and on objects without the
field), whose truthiness decides. -/
def guardAllows : JSValue → Bool
  | .prim (.bool b) => b
  | .prim .undefined => false
  | .prim .null => false
  | .prim (.num _) => false
  | .prim (.str _) => false
  | .obj none => false
  | .obj (some a) => truthyP a

/-- A guard's behaviour: return a value, or throw. -/
inductive GuardSpec
  | ret (v : JSValue)
  | throwE
deriving DecidableEq, Repr

/-- Whether one guard lets the message pass (a thrown guard never does). -/
def guardPassesB : GuardSpec → Bool
  | .ret v => guardAllows v
  | .throwE => false

/-- Model of `runGuards(guards, ctx)`: evaluates guards in order; the first falsy
(or throwing) guard returns `false`; all passing returns `true`.  The second
component counts how many guards were evaluated. -/
def runGuards : List GuardSpec → Bool × Nat
  | [] => (true, 0)
  | .throwE :: _ => (false, 1)
  | .ret v :: rest =>
    if guardAllows v then
      let r := runGuards rest
      (r.1, r.2 + 1)
    else (false, 1)

/-! ## Lifecycle hooks (`runHooks`, realtime.js lines 96-105)

Each hook runs inside its own `try`/`catch`; a throwing hook is logged and
the loop continues, so every registered hook of the phase executes.
`runHooks` returns the number of hook callbacks that were invoked. -/

inductive HookSpec
  | ok
  | throwE
deriving DecidableEq, Repr

def runHooks : List HookSpec → Nat
  | [] => 0
  | _hook :: rest => runHooks rest + 1

/-! ## Routes and the dispatcher (`start`'s onMessage callback, lines 296-332) -/

/-- A handler's behaviour: return normally, or throw. -/
inductive HandlerSpec
  | ok
  | throwE
deriving DecidableEq, Repr

/-- A registered route: `routes.set(event, { guards, middleware, handler })`. -/
structure Route where
  guards : List GuardSpec
  middleware : List MW
  handler : HandlerSpec
deriving DecidableEq, Repr

/-- The dispatcher's configuration at the time a message arrives. -/
structure System where
  globalMiddleware : List MW
  routes : List (String × Route)
  beforeMessageHooks : List HookSpec
  afterMessageHooks : List HookSpec
  onErrorHooks : List HookSpec
  /-- Whether `transport.normalizePayload` throws inside `createContext`. -/
  normalizeThrows : Bool
  /-- the configured `errorHandler` itself throws when invoked. -/
  errorHandlerThrows : Bool
deriving DecidableEq, Repr

/-- Terminal state of one message's dispatch.  `escaped` marks an exception
that propagated out of the `transport.onMessage` callback. -/
inductive Outcome
  | done
  | rejected
  | errored
  | escaped
deriving DecidableEq, Repr

/-- Everything observable about the processing of one inbound message. -/
structure DispatchResult where
  ctx : Ctx
  beforeHookRuns : Nat
  guardsEvaluated : Nat
  routeMwStarted : Bool
  handlerRan : Bool
  afterHookRuns : Nat
  onErrorHookRuns : Nat
  errorHandlerRan : Bool
  outcome : Outcome
deriving DecidableEq, Repr

/-- A result with nothing past the context recorded yet. -/
def baseResult (c : Ctx) (bh : Nat) (o : Outcome) : DispatchResult :=
  { ctx := c, beforeHookRuns := bh, guardsEvaluated := 0, routeMwStarted := false,
    handlerRan := false, afterHookRuns := 0, onErrorHookRuns := 0,
    errorHandlerRan := false, outcome := o }

/-- The `transport.onMessage` callback registered by `start` (lines 296-332),
for one inbound message of type `evType`:
`createContext` (outside the `try`; a throwing `normalizePayload` escapes),
`beforeMessage` hooks, then inside `try`: global middleware, route lookup,
guards, route middleware, handler, `afterMessage` hooks; `catch`: `onError`
hooks then the error handler (whose own exception escapes the callback). -/
def dispatch (sys : System) (evType : String) : DispatchResult :=
  if sys.normalizeThrows then
    baseResult ⟨false, []⟩ 0 .escaped
  else
    let bh := runHooks sys.beforeMessageHooks
    match runMiddleware sys.globalMiddleware ⟨false, []⟩ with
    | (false, c1) => baseResult c1 bh .rejected
    | (true, c1) =>
      match List.lookup evType sys.routes with
      | none => baseResult c1 bh .rejected
      | some route =>
        match runGuards route.guards with
        | (false, gn) => { (baseResult c1 bh .rejected) with guardsEvaluated := gn }
        | (true, gn) =>
          match runMiddleware route.middleware c1 with
          | (false, c2) =>
            { (baseResult c2 bh .rejected) with guardsEvaluated := gn, routeMwStarted := true }
          | (true, c2) =>
            match route.handler with
            | .ok =>
              { (baseResult c2 bh .done) with
                guardsEvaluated := gn, routeMwStarted := true,
                handlerRan := true, afterHookRuns := runHooks sys.afterMessageHooks }
            | .throwE =>
              { (baseResult c2 bh (if sys.errorHandlerThrows then .escaped else .errored)) with
                guardsEvaluated := gn, routeMwStarted := true, handlerRan := true,
                onErrorHookRuns := runHooks sys.onErrorHooks, errorHandlerRan := true }

/-! ## Route registration (`registerRoutes`, realtime.js lines 231-250)

`registerRoutes` destructures each entry as
`{ event, guards = [], middleware = [], handler }`, throws
`'Ruta inválida: "event" y "handler" son requeridos'` when `event` or
`handler` is falsy, throws `'Handler ... debe ser una función'` when the
handler is not a function, and otherwise executes
`routes.set(event, { guards, middleware, handler })` — mutating the shared
table as it goes, so entries before a failing one stay registered. -/

/-- The `handler` field of a route entry as passed by the caller. -/
inductive HandlerField
  | missing                -- absent or otherwise falsy
  | notFunc                -- present and truthy, but not a function
  | func (h : HandlerSpec) -- a function
deriving DecidableEq, Repr

/-- One entry of the list given to `registerRoutes`. -/
structure RouteSpec where
  event : String
  guards : List GuardSpec
  middleware : List MW
  handler : HandlerField
deriving DecidableEq, Repr

inductive RegError
  | invalidRoute       -- 'Ruta inválida: "event" y "handler" son requeridos'
  | handlerNotFunction -- 'Handler para evento "..." debe ser una función'
deriving DecidableEq, Repr

/-- Model of `routes.set(event, route)`: insert/overwrite by key.  The newest binding
shadows older ones, so `List.lookup` (first match) realises a JS `Map`'s
last-registration-wins reads. -/
def insertRoute (tbl : List (String × Route)) (event : String) (r : Route) :
    List (String × Route) :=
  (event, r) :: tbl

/-- The `for (const route of routeList)` loop of `registerRoutes`: returns
the table as it stands when the call returns or throws, and the error thrown
if any.  A throw aborts the loop immediately, keeping prior insertions. -/
def registerRoutes :
    List (String × Route) → List RouteSpec → List (String × Route) × Option RegError
  | tbl, [] => (tbl, none)
  | tbl, r :: rest =>
    if r.event = "" ∨ r.handler = HandlerField.missing then
      (tbl, some .invalidRoute)
    else
      match r.handler with
      | .func h =>
        registerRoutes (insertRoute tbl r.event ⟨r.guards, r.middleware, h⟩) rest
      | _ => (tbl, some .handlerNotFunction)

/-- Whether a route entry passes `registerRoutes`'s validation. -/
def validRouteSpec (r : RouteSpec) : Bool :=
  r.event ≠ "" &&
    match r.handler with
    | .func _ => true
    | _ => false

/-! ## Local event bus (`internalEmit` lines 202-209, `off` lines 416-434)

`internalEmit` (no custom emitter) fetches the listener array for the event
and runs `for (const cb of callbacks) cb(data)` over the *live* array, with
no `try`/`catch`.  A listener may in turn call `off(event, callback)`, which
splices the first matching callback out of that same array.  Listeners are
identified by `id` (JS function identity); their behaviour is a sequence of
steps: log an effect, remove a listener, or throw. -/

inductive LAct
  | log (tag : Nat)
  | off (id : Nat)
  | throwE
deriving DecidableEq, Repr

structure Listener where
  id : Nat
  acts : List LAct
deriving DecidableEq, Repr

/-- Model of `callbacks.indexOf(callback)` plus `splice(idx, 1)`: remove the first
listener with the given identity; no-op when absent (`idx === -1`). -/
def removeFirst (i : Nat) : List Listener → List Listener
  | [] => []
  | l :: rest => if l.id = i then rest else l :: removeFirst i rest

/-- Runs one listener callback's body over the live listener array and the
ghost trace.  A throw aborts the body and propagates out of the `for` loop
(there is no `try`/`catch` in `internalEmit`). -/
def runLActs : List LAct → List Listener → List Nat →
    List Listener × List Nat × Option Unit
  | [], reg, tr => (reg, tr, none)
  | .log n :: rest, reg, tr => runLActs rest reg (tr ++ [n])
  | .off i :: rest, reg, tr => runLActs rest (removeFirst i reg) tr
  | .throwE :: _, reg, tr => (reg, tr, some ())

/-- The `for (const cb of callbacks)` loop: the array iterator keeps a
cursor `idx`; at each step it checks `idx` against the *current* length of
the live array, yields `callbacks[idx]`, and advances.  `fuel` is an upper
bound on the remaining iterations (the live array never grows, so
`reg.length + 1` at entry is always sufficient — `emitGo_fuel_irrelevant`
below shows any sufficient fuel computes the same result). -/
def emitGo : Nat → Nat → List Listener → List Nat →
    List Listener × List Nat × Option Unit
  | 0, _, reg, tr => (reg, tr, none)
  | fuel + 1, idx, reg, tr =>
    if h : idx < reg.length then
      match runLActs (reg.get ⟨idx, h⟩).acts reg tr with
      | (reg', tr', none) => emitGo fuel (idx + 1) reg' tr'
      | (reg', tr', some u) => (reg', tr', some u)
    else (reg, tr, none)

/-- Model of `internalEmit(event, data)` over the listener array registered for the
event: returns the array after the emission, the trace of listener effects
in invocation order, and the exception if one propagated. -/
def internalEmit (reg : List Listener) : List Listener × List Nat × Option Unit :=
  emitGo (reg.length + 1) 0 reg []

/-! ## Helper lemmas: middleware chain runner -/

/-- Fact: `runActs` never decreases the continuation counter, provided the
continuation does not. -/
theorem runActs_i_mono (k : RunState → RunState × Option MWErr)
    (hk : ∀ s2, s2.i ≤ (k s2).1.i) :
    ∀ (acts : List MWAct) (s : RunState), s.i ≤ (runActs k acts s).1.i := by
  intro acts
  induction acts with
  | nil => intro s; simp [runActs]
  | cons a rest ih =>
    intro s
    cases a with
    | callNext =>
      simp only [runActs]
      rcases hke : k s with ⟨s', e⟩
      cases e with
      | none =>
        have h1 := hk s
        rw [hke] at h1
        exact le_trans h1 (ih s')
      | some e => exact le_of_le_of_eq (hk s) (by rw [hke])
    | stop => simpa [runActs] using ih ⟨s.i, ⟨true, s.ctx.trace⟩⟩
    | throwE => simp [runActs]
    | log n => simpa [runActs] using ih ⟨s.i, ⟨s.ctx.stopped, s.ctx.trace ++ [n]⟩⟩

/-- Fact: `next` never decreases the continuation counter. -/
theorem runSuffix_i_mono :
    ∀ (rest : List MW) (j : Nat) (s : RunState), s.i ≤ (runSuffix j rest s).1.i := by
  intro rest
  induction rest with
  | nil =>
    intro j s
    simp only [runSuffix]
    split
    · simp
    · simp; omega
  | cons mw rest' ih =>
    intro j s
    simp only [runSuffix]
    split
    · simp
    · rename_i hle
      have hmono := runActs_i_mono (fun s2 => runSuffix (j + 1) rest' s2)
        (fun s2 => ih (j + 1) s2) mw ⟨(j : Int), s.ctx⟩
      simp only at hmono
      have : s.i ≤ (j : Int) := by omega
      exact le_trans this hmono

/-- When `next(j)` returns without throwing, the counter has reached at
least `j`. -/
theorem runSuffix_ok_i_ge (rest : List MW) (j : Nat) (s : RunState)
    (h : (runSuffix j rest s).2 = none) : (j : Int) ≤ (runSuffix j rest s).1.i := by
  rw [runSuffix.eq_def] at h ⊢
  by_cases hle : (j : Int) ≤ s.i
  · rw [if_pos hle] at h
    simp at h
  · rw [if_neg hle] at h ⊢
    cases rest with
    | nil => simp
    | cons mw rest' =>
      simpa using runActs_i_mono (fun s2 => runSuffix (j + 1) rest' s2)
        (fun s2 => runSuffix_i_mono rest' (j + 1) s2) mw ⟨(j : Int), s.ctx⟩

/-- No middleware step can clear the `stopped` flag (there is no
"unstop" operation on the context), provided the continuation cannot. -/
theorem runActs_stopped_mono (k : RunState → RunState × Option MWErr)
    (hk : ∀ s2, s2.ctx.stopped = true → ((k s2).1).ctx.stopped = true) :
    ∀ (acts : List MWAct) (s : RunState),
      s.ctx.stopped = true → ((runActs k acts s).1).ctx.stopped = true := by
  intro acts
  induction acts with
  | nil => intro s hs; simpa [runActs] using hs
  | cons a rest ih =>
    intro s hs
    cases a with
    | callNext =>
      simp only [runActs]
      rcases hke : k s with ⟨s', e⟩
      have h1 := hk s hs
      rw [hke] at h1
      cases e with
      | none => exact ih s' h1
      | some e => exact h1
    | stop => exact ih ⟨s.i, ⟨true, s.ctx.trace⟩⟩ rfl
    | throwE => simpa [runActs] using hs
    | log n => exact ih ⟨s.i, ⟨s.ctx.stopped, s.ctx.trace ++ [n]⟩⟩ (by simpa using hs)

/-- Fact: `next` preserves a stopped context. -/
theorem runSuffix_stopped_mono :
    ∀ (rest : List MW) (j : Nat) (s : RunState),
      s.ctx.stopped = true → ((runSuffix j rest s).1).ctx.stopped = true := by
  intro rest
  induction rest with
  | nil =>
    intro j s hs
    rw [runSuffix.eq_def]
    by_cases hle : (j : Int) ≤ s.i
    · rw [if_pos hle]; exact hs
    · rw [if_neg hle]; exact hs
  | cons mw rest' ih =>
    intro j s hs
    rw [runSuffix.eq_def]
    by_cases hle : (j : Int) ≤ s.i
    · rw [if_pos hle]; exact hs
    · rw [if_neg hle]
      exact runActs_stopped_mono (fun s2 => runSuffix (j + 1) rest' s2)
        (fun s2 => ih (j + 1) s2) mw ⟨(j : Int), s.ctx⟩ hs

/-- Fact: `runMiddleware` preserves a stopped context: once `ctx.stop()` has been
observed, no later chain run resets it. -/
theorem runMiddleware_stopped_mono (mws : List MW) (c : Ctx)
    (hc : c.stopped = true) : ((runMiddleware mws c).2).stopped = true := by
  unfold runMiddleware
  rcases hr : runSuffix 0 mws ⟨-1, c⟩ with ⟨s, e⟩
  have := runSuffix_stopped_mono mws 0 ⟨-1, c⟩ hc
  rw [hr] at this
  cases e <;> simpa using this

/-- A chain run over a context that ends stopped always reports `false`:
on the no-throw path the runner returns `!ctx.isStopped()`, and on the
throw path it returns `false` outright. -/
theorem runMiddleware_stopped_rejects (mws : List MW) (c : Ctx)
    (h : ((runMiddleware mws c).2).stopped = true) : (runMiddleware mws c).1 = false := by
  unfold runMiddleware at h ⊢
  rcases hr : runSuffix 0 mws ⟨-1, c⟩ with ⟨s, e⟩
  rw [hr] at h
  cases e <;> simp_all

/-- A chain run reporting `true` did not throw and left the context
unstopped. -/
theorem runMiddleware_true_not_stopped (mws : List MW) (c c' : Ctx)
    (h : runMiddleware mws c = (true, c')) : c'.stopped = false := by
  unfold runMiddleware at h
  rcases hr : runSuffix 0 mws ⟨-1, c⟩ with ⟨s, e⟩
  rw [hr] at h
  cases e with
  | none =>
    simp only [Prod.mk.injEq] at h
    rcases h with ⟨h1, h2⟩
    subst h2
    simpa using h1
  | some e => simp at h

/-! ## Helper lemmas: guard evaluator -/

/-- All guards passing: the evaluator reports `true` after evaluating every
guard. -/
theorem runGuards_all_pass (gl : List GuardSpec)
    (h : ∀ g ∈ gl, guardPassesB g = true) : runGuards gl = (true, gl.length) := by
  induction gl with
  | nil => simp [runGuards]
  | cons g rest ih =>
    cases g with
    | throwE => simpa [guardPassesB] using h .throwE (List.mem_cons_self _ _)
    | ret v =>
      have hv : guardAllows v = true := by
        simpa [guardPassesB] using h (.ret v) (List.mem_cons_self _ _)
      have hrest := ih (fun g hg => h g (List.mem_cons_of_mem _ hg))
      simp [runGuards, hv, hrest]

/-- The first rejecting (or throwing) guard short-circuits: the evaluator
reports `false` having evaluated exactly the guards up to and including it;
the guards after it are not evaluated. -/
theorem runGuards_first_reject (pre : List GuardSpec) (g : GuardSpec)
    (post : List GuardSpec) (hpre : ∀ x ∈ pre, guardPassesB x = true)
    (hg : guardPassesB g = false) :
    runGuards (pre ++ g :: post) = (false, pre.length + 1) := by
  induction pre with
  | nil =>
    cases g with
    | throwE => simp [runGuards]
    | ret v => simp [runGuards, show guardAllows v = false from hg]
  | cons x pre' ih =>
    cases x with
    | throwE => simpa [guardPassesB] using hpre .throwE (List.mem_cons_self _ _)
    | ret v =>
      have hv : guardAllows v = true := by
        simpa [guardPassesB] using hpre (.ret v) (List.mem_cons_self _ _)
      have := ih (fun x hx => hpre x (List.mem_cons_of_mem _ hx))
      simp [runGuards, hv, this]

/-! ## Helper lemmas: local event bus -/

/-- A listener body that only logs: no `off` call, no throw. -/
def isPureActs : List LAct → Bool
  | [] => true
  | .log _ :: rest => isPureActs rest
  | .off _ :: _ => false
  | .throwE :: _ => false

/-- The effects a listener body logs, in order. -/
def logsOf : List LAct → List Nat
  | [] => []
  | .log n :: rest => n :: logsOf rest
  | .off _ :: rest => logsOf rest
  | .throwE :: rest => logsOf rest

/-- The concatenated logs of a listener list, in order. -/
def flatLogs (ls : List Listener) : List Nat :=
  ls.foldr (fun l acc => logsOf l.acts ++ acc) []

theorem flatLogs_cons (l : Listener) (ls : List Listener) :
    flatLogs (l :: ls) = logsOf l.acts ++ flatLogs ls := rfl

theorem removeFirst_length_le (i : Nat) :
    ∀ ls : List Listener, (removeFirst i ls).length ≤ ls.length := by
  intro ls
  induction ls with
  | nil => simp [removeFirst]
  | cons l rest ih =>
    simp only [removeFirst]
    split
    · simp
    · simpa using ih

/-- Removing an absent identity is a no-op (`indexOf` returns `-1`). -/
theorem removeFirst_not_mem (i : Nat) :
    ∀ ls : List Listener, (∀ l ∈ ls, l.id ≠ i) → removeFirst i ls = ls := by
  intro ls
  induction ls with
  | nil => intro _; rfl
  | cons l rest ih =>
    intro h
    have hl : l.id ≠ i := h l (List.mem_cons_self _ _)
    simp only [removeFirst, if_neg hl]
    rw [ih (fun x hx => h x (List.mem_cons_of_mem _ hx))]

/-- A listener body never grows the live listener array. -/
theorem runLActs_length_le :
    ∀ (acts : List LAct) (reg : List Listener) (tr : List Nat),
      ((runLActs acts reg tr).1).length ≤ reg.length := by
  intro acts
  induction acts with
  | nil => intro reg tr; simp [runLActs]
  | cons a rest ih =>
    intro reg tr
    cases a with
    | log n => simpa [runLActs] using ih reg (tr ++ [n])
    | off i =>
      calc ((runLActs (.off i :: rest) reg tr).1).length
          = ((runLActs rest (removeFirst i reg) tr).1).length := rfl
        _ ≤ (removeFirst i reg).length := ih _ _
        _ ≤ reg.length := removeFirst_length_le i reg
    | throwE => simp [runLActs]

/-- The loop's result does not depend on the fuel once the fuel exceeds the
number of remaining iterations, so `internalEmit`'s choice of
`reg.length + 1` is as good as any other sufficient bound. -/
theorem emitGo_fuel_irrelevant :
    ∀ (f1 : Nat) (f2 idx : Nat) (reg : List Listener) (tr : List Nat),
      reg.length - idx < f1 → reg.length - idx < f2 →
      emitGo f1 idx reg tr = emitGo f2 idx reg tr := by
  intro f1
  induction f1 with
  | zero => intro f2 idx reg tr h1 _; omega
  | succ f1' ih =>
    intro f2 idx reg tr h1 h2
    cases f2 with
    | zero => omega
    | succ f2' =>
      simp only [emitGo]
      split
      · rename_i h
        rcases hr : runLActs (reg.get ⟨idx, h⟩).acts reg tr with ⟨reg', tr', e⟩
        cases e with
        | none =>
          have hlen : reg'.length ≤ reg.length := by
            have := runLActs_length_le (reg.get ⟨idx, h⟩).acts reg tr
            rw [hr] at this
            exact this
          exact ih f2' (idx + 1) reg' tr' (by omega) (by omega)
        | some u => rfl
      · rfl

/-- A pure listener body only appends its logs to the trace. -/
theorem runLActs_pure (acts : List LAct) (h : isPureActs acts = true) :
    ∀ (reg : List Listener) (tr : List Nat),
      runLActs acts reg tr = (reg, tr ++ logsOf acts, none) := by
  induction acts with
  | nil => intro reg tr; simp [runLActs, logsOf]
  | cons a rest ih =>
    intro reg tr
    cases a with
    | log n =>
      have := ih (by simpa [isPureActs] using h) reg (tr ++ [n])
      simp [runLActs, logsOf, this]
    | off i => simp [isPureActs] at h
    | throwE => simp [isPureActs] at h

/-- Iterating over a stretch of pure listeners neither changes the array nor
throws: the loop just advances the cursor past them, appending their logs. -/
theorem emitGo_pure_walk (k : Nat) :
    ∀ (f idx : Nat) (reg : List Listener) (tr : List Nat),
      idx + k ≤ reg.length →
      (∀ j (hj : j < reg.length), idx ≤ j → j < idx + k →
        isPureActs (reg.get ⟨j, hj⟩).acts = true) →
      emitGo (f + k) idx reg tr
        = emitGo f (idx + k) reg (tr ++ flatLogs ((reg.drop idx).take k)) := by
  induction k with
  | zero => intro f idx reg tr _ _; simp [flatLogs]
  | succ k' ih =>
    intro f idx reg tr hlen hpure
    have hidx : idx < reg.length := by omega
    have hstep : emitGo (f + (k' + 1)) idx reg tr
        = emitGo (f + k') (idx + 1) reg (tr ++ logsOf (reg.get ⟨idx, hidx⟩).acts) := by
      show emitGo ((f + k') + 1) idx reg tr = _
      simp only [emitGo]
      rw [dif_pos hidx,
        runLActs_pure _ (hpure idx hidx (Nat.le_refl idx) (by omega)) reg tr]
    rw [hstep, ih f (idx + 1) reg _ (by omega)
      (fun j hj h1 h2 => hpure j hj (by omega) (by omega))]
    have hdrop : (reg.drop idx).take (k' + 1)
        = reg.get ⟨idx, hidx⟩ :: (reg.drop (idx + 1)).take k' := by
      rw [List.drop_eq_getElem_cons hidx, List.take_succ_cons]
      simp [List.get_eq_getElem]
    rw [hdrop, flatLogs_cons]
    have harith : idx + 1 + k' = idx + (k' + 1) := by omega
    rw [harith, List.append_assoc]

/-- Monotonicity of registration: an event with a route registered keeps a
route registered through any further `registerRoutes` processing (insertions
only shadow, never delete). -/
theorem registerRoutes_lookup_mono :
    ∀ (rs : List RouteSpec) (tbl : List (String × Route)) (e : String),
      (List.lookup e tbl).isSome →
      (List.lookup e (registerRoutes tbl rs).1).isSome := by
  intro rs
  induction rs with
  | nil => intro tbl e h; simpa [registerRoutes] using h
  | cons r rest ih =>
    intro tbl e h
    simp only [registerRoutes]
    split
    · simpa using h
    · split
      · apply ih
        by_cases he : e = r.event
        · subst he
          simp [insertRoute, List.lookup]
        · simp only [insertRoute, List.lookup]
          rw [show (e == r.event) = false by simpa using he]
          simpa using h
      · simpa using h

/-! ## Dispatch characterization equations -/

theorem dispatch_eq_escaped (sys : System) (t : String)
    (hn : sys.normalizeThrows = true) :
    dispatch sys t = baseResult ⟨false, []⟩ 0 .escaped := by
  rw [dispatch.eq_def, hn]
  simp

theorem dispatch_eq_global_reject (sys : System) (t : String)
    (hn : sys.normalizeThrows = false) {c1 : Ctx}
    (hm : runMiddleware sys.globalMiddleware ⟨false, []⟩ = (false, c1)) :
    dispatch sys t = baseResult c1 (runHooks sys.beforeMessageHooks) .rejected := by
  rw [dispatch.eq_def, hn]
  simp only [Bool.false_eq_true, if_false, hm]

theorem dispatch_eq_no_route (sys : System) (t : String)
    (hn : sys.normalizeThrows = false) {c1 : Ctx}
    (hm : runMiddleware sys.globalMiddleware ⟨false, []⟩ = (true, c1))
    (hl : List.lookup t sys.routes = none) :
    dispatch sys t = baseResult c1 (runHooks sys.beforeMessageHooks) .rejected := by
  rw [dispatch.eq_def, hn]
  simp only [Bool.false_eq_true, if_false, hm, hl]

theorem dispatch_eq_guard_reject (sys : System) (t : String)
    (hn : sys.normalizeThrows = false) {c1 : Ctx} {route : Route} {gn : Nat}
    (hm : runMiddleware sys.globalMiddleware ⟨false, []⟩ = (true, c1))
    (hl : List.lookup t sys.routes = some route)
    (hg : runGuards route.guards = (false, gn)) :
    dispatch sys t
      = { (baseResult c1 (runHooks sys.beforeMessageHooks) .rejected) with
          guardsEvaluated := gn } := by
  rw [dispatch.eq_def, hn]
  simp only [Bool.false_eq_true, if_false, hm, hl, hg]

theorem dispatch_eq_route_mw_reject (sys : System) (t : String)
    (hn : sys.normalizeThrows = false) {c1 c2 : Ctx} {route : Route} {gn : Nat}
    (hm : runMiddleware sys.globalMiddleware ⟨false, []⟩ = (true, c1))
    (hl : List.lookup t sys.routes = some route)
    (hg : runGuards route.guards = (true, gn))
    (hm2 : runMiddleware route.middleware c1 = (false, c2)) :
    dispatch sys t
      = { (baseResult c2 (runHooks sys.beforeMessageHooks) .rejected) with
          guardsEvaluated := gn, routeMwStarted := true } := by
  rw [dispatch.eq_def, hn]
  simp only [Bool.false_eq_true, if_false, hm, hl, hg, hm2]

theorem dispatch_eq_handler_ok (sys : System) (t : String)
    (hn : sys.normalizeThrows = false) {c1 c2 : Ctx} {route : Route} {gn : Nat}
    (hm : runMiddleware sys.globalMiddleware ⟨false, []⟩ = (true, c1))
    (hl : List.lookup t sys.routes = some route)
    (hg : runGuards route.guards = (true, gn))
    (hm2 : runMiddleware route.middleware c1 = (true, c2))
    (hh : route.handler = .ok) :
    dispatch sys t
      = { (baseResult c2 (runHooks sys.beforeMessageHooks) .done) with
          guardsEvaluated := gn, routeMwStarted := true,
          handlerRan := true, afterHookRuns := runHooks sys.afterMessageHooks } := by
  rw [dispatch.eq_def, hn]
  simp only [Bool.false_eq_true, if_false, hm, hl, hg, hm2, hh]

theorem dispatch_eq_handler_throw (sys : System) (t : String)
    (hn : sys.normalizeThrows = false) {c1 c2 : Ctx} {route : Route} {gn : Nat}
    (hm : runMiddleware sys.globalMiddleware ⟨false, []⟩ = (true, c1))
    (hl : List.lookup t sys.routes = some route)
    (hg : runGuards route.guards = (true, gn))
    (hm2 : runMiddleware route.middleware c1 = (true, c2))
    (hh : route.handler = .throwE) :
    dispatch sys t
      = { (baseResult c2 (runHooks sys.beforeMessageHooks)
            (if sys.errorHandlerThrows then .escaped else .errored)) with
          guardsEvaluated := gn, routeMwStarted := true, handlerRan := true,
          onErrorHookRuns := runHooks sys.onErrorHooks, errorHandlerRan := true } := by
  rw [dispatch.eq_def, hn]
  simp only [Bool.false_eq_true, if_false, hm, hl, hg, hm2, hh]

/-! ## Claim theorems -/

/-- Claim C7: the Guard Evaluator evaluates guards strictly in order; the
first disallowed (or throwing) guard stops evaluation with result `false`
and no later guard is evaluated; a throwing guard counts as a rejection and
the exception is not propagated (the evaluator returns normally); all guards
passing yields `true`; and a rejecting guard list means neither the route
middleware nor the handler runs for that message. -/
theorem C7_guard_evaluator_order :
    (∀ gl : List GuardSpec, (∀ g ∈ gl, guardPassesB g = true) →
      runGuards gl = (true, gl.length)) ∧
    (∀ (pre : List GuardSpec) (g : GuardSpec) (post : List GuardSpec),
      (∀ x ∈ pre, guardPassesB x = true) → guardPassesB g = false →
      runGuards (pre ++ g :: post) = (false, pre.length + 1)) ∧
    (∀ (sys : System) (t : String) (route : Route),
      sys.normalizeThrows = false →
      List.lookup t sys.routes = some route →
      (runGuards route.guards).1 = false →
      (dispatch sys t).handlerRan = false ∧ (dispatch sys t).routeMwStarted = false ∧
        (dispatch sys t).outcome = Outcome.rejected) := by
  refine ⟨runGuards_all_pass, runGuards_first_reject, ?_⟩
  intro sys t route hn hlook hrej
  rw [dispatch.eq_def, hn]
  simp only [if_false, Bool.false_eq_true]
  rcases hm : runMiddleware sys.globalMiddleware ⟨false, []⟩ with ⟨acc, c1⟩
  cases acc
  · simp [baseResult]
  · rcases hg : runGuards route.guards with ⟨b, gn⟩
    rw [hg] at hrej
    simp only at hrej
    subst hrej
    simp only [hlook, hg]
    simp [baseResult]

/-- Witness for C7: a passing guard list, a throwing guard in second
position short-circuiting, and a dispatch whose single (throwing) guard
keeps the handler from running. -/
theorem C7_guard_evaluator_order_witness :
    runGuards [.ret (.prim (.bool true))] = (true, 1) ∧
    runGuards [.ret (.prim (.bool true)), .throwE, .ret (.prim (.bool true))] = (false, 2) ∧
    (dispatch ⟨[], [("e", ⟨[.throwE], [], .ok⟩)], [], [], [], false, false⟩ "e").handlerRan
      = false := by
  refine ⟨?_, ?_, ?_⟩
  · exact C7_guard_evaluator_order.1 [.ret (.prim (.bool true))] (by decide)
  · have h := C7_guard_evaluator_order.2.1 [.ret (.prim (.bool true))] .throwE
      [.ret (.prim (.bool true))] (by decide) (by decide)
    simpa using h
  · exact (C7_guard_evaluator_order.2.2
      ⟨[], [("e", ⟨[.throwE], [], .ok⟩)], [], [], [], false, false⟩ "e"
      ⟨[.throwE], [], .ok⟩ rfl (by decide) (by decide)).1

/-- Claim C8: route registration validates synchronously: an entry with an
empty event identifier or an absent handler raises the invalid-route error,
an entry whose handler is not a function raises the handler-type error —
in both cases at the registration call itself, with the route table left as
it was — while an entry with a non-empty event and a function handler is
accepted and inserted (found by subsequent lookup). -/
theorem C8_registration_validation :
    (∀ (tbl : List (String × Route)) (r : RouteSpec) (rest : List RouteSpec),
      (r.event = "" ∨ r.handler = HandlerField.missing) →
      registerRoutes tbl (r :: rest) = (tbl, some .invalidRoute)) ∧
    (∀ (tbl : List (String × Route)) (r : RouteSpec) (rest : List RouteSpec),
      r.event ≠ "" → r.handler = HandlerField.notFunc →
      registerRoutes tbl (r :: rest) = (tbl, some .handlerNotFunction)) ∧
    (∀ (tbl : List (String × Route)) (r : RouteSpec) (h : HandlerSpec),
      r.event ≠ "" → r.handler = HandlerField.func h →
      (registerRoutes tbl [r]).2 = none ∧
      List.lookup r.event (registerRoutes tbl [r]).1
        = some ⟨r.guards, r.middleware, h⟩) := by
  refine ⟨?_, ?_, ?_⟩
  · intro tbl r rest h
    simp only [registerRoutes]
    rw [if_pos h]
  · intro tbl r rest he hh
    simp only [registerRoutes]
    rw [if_neg (by rintro (h1 | h1); exacts [he h1, by rw [hh] at h1; cases h1]), hh]
  · intro tbl r h he hh
    simp only [registerRoutes]
    rw [if_neg (by rintro (h1 | h1); exacts [he h1, by rw [hh] at h1; cases h1]), hh]
    simp [registerRoutes, insertRoute, List.lookup]

/-- Witness for C8 at concrete routes. -/
theorem C8_registration_validation_witness :
    registerRoutes [] [⟨"", [], [], .func .ok⟩, ⟨"b", [], [], .func .ok⟩]
        = ([], some .invalidRoute) ∧
    registerRoutes [] [⟨"a", [], [], .notFunc⟩] = ([], some .handlerNotFunction) ∧
    (registerRoutes [] [⟨"a", [], [], .func .ok⟩]).2 = none ∧
    List.lookup "a" (registerRoutes [] [⟨"a", [], [], .func .ok⟩]).1
      = some ⟨[], [], .ok⟩ := by
  refine ⟨?_, ?_, ?_⟩
  · exact C8_registration_validation.1 [] ⟨"", [], [], .func .ok⟩ _ (Or.inl rfl)
  · exact C8_registration_validation.2.1 [] ⟨"a", [], [], .notFunc⟩ [] (by decide) rfl
  · exact C8_registration_validation.2.2 [] ⟨"a", [], [], .func .ok⟩ .ok (by decide) rfl

/-- Claim C9: only the literal boolean `true`, or an object whose `allowed`
field is truthy, counts as allowing; every other guard result — including
truthy non-boolean primitives such as a non-zero number or a non-empty
string — is treated as a rejection. -/
theorem C9_guard_result_coercion :
    (∀ v : JSValue, guardAllows v = true ↔
      (v = .prim (.bool true) ∨ ∃ a, v = .obj (some a) ∧ truthyP a = true)) ∧
    (∀ n : Int, n ≠ 0 → runGuards [.ret (.prim (.num n))] = (false, 1)) ∧
    (∀ s : String, s ≠ "" → runGuards [.ret (.prim (.str s))] = (false, 1)) := by
  refine ⟨?_, ?_, ?_⟩
  · intro v
    rcases v with p | a
    · cases p with
      | undefined => simp [guardAllows]
      | null => simp [guardAllows]
      | bool b => cases b <;> simp [guardAllows]
      | num n => simp [guardAllows]
      | str s => simp [guardAllows]
    · cases a <;> simp [guardAllows]
  · intro n _
    simp [runGuards, guardAllows]
  · intro s _
    simp [runGuards, guardAllows]

/-- Witness for C9: a guard returning `1` or `"x"` rejects. -/
theorem C9_guard_result_coercion_witness :
    runGuards [.ret (.prim (.num 1))] = (false, 1) ∧
    runGuards [.ret (.prim (.str "x"))] = (false, 1) :=
  ⟨C9_guard_result_coercion.2.1 1 (by decide),
    C9_guard_result_coercion.2.2 "x" (by decide)⟩

/-- Claim C10: registration of a list is not atomic: when the first invalid
entry sits at index `k`, the call reports an error, yet every valid entry
before index `k` has been inserted and remains registered (its event is
found by lookup in the resulting table). -/
theorem C10_registration_not_atomic :
    ∀ (tbl : List (String × Route)) (pre : List RouteSpec) (r : RouteSpec)
      (rest : List RouteSpec),
      (∀ x ∈ pre, validRouteSpec x = true) → validRouteSpec r = false →
      (registerRoutes tbl (pre ++ r :: rest)).2 ≠ none ∧
      ∀ x ∈ pre,
        (List.lookup x.event (registerRoutes tbl (pre ++ r :: rest)).1).isSome := by
  intro tbl pre
  induction pre generalizing tbl with
  | nil =>
    intro r rest _ hr
    refine ⟨?_, by intro x hx; simp at hx⟩
    rw [List.nil_append]
    simp only [registerRoutes]
    split
    · simp
    · rename_i hcond
      push_neg at hcond
      rcases hh : r.handler with _ | _ | hfn
      · exact absurd hh hcond.2
      · simp
      · exfalso
        simp only [validRouteSpec, hh] at hr
        simp at hr
        exact hcond.1 hr
  | cons x pre' ih =>
    intro r rest hpre hr
    have hx : validRouteSpec x = true := hpre x (List.mem_cons_self _ _)
    have hxe : ¬(x.event = "" ∨ x.handler = HandlerField.missing) := by
      simp only [validRouteSpec, Bool.and_eq_true, decide_eq_true_eq] at hx
      rcases hx with ⟨h1, h2⟩
      rintro (h3 | h3)
      · exact absurd h3 (by simpa using h1)
      · rw [h3] at h2; simp at h2
    rcases hh : x.handler with _ | _ | hfn
    · exact absurd (Or.inr hh) hxe
    · exfalso
      simp only [validRouteSpec, Bool.and_eq_true] at hx
      rw [hh] at hx
      simp at hx
    · have hstep : registerRoutes tbl ((x :: pre') ++ r :: rest)
          = registerRoutes (insertRoute tbl x.event ⟨x.guards, x.middleware, hfn⟩)
              (pre' ++ r :: rest) := by
        rw [List.cons_append]
        simp only [registerRoutes]
        rw [if_neg hxe, hh]
      rcases ih (insertRoute tbl x.event ⟨x.guards, x.middleware, hfn⟩) r rest
        (fun y hy => hpre y (List.mem_cons_of_mem _ hy)) hr with ⟨ha, hb⟩
      refine ⟨by rw [hstep]; exact ha, ?_⟩
      intro y hy
      rcases List.mem_cons.mp hy with hy1 | hy1
      · subst hy1
        rw [hstep]
        apply registerRoutes_lookup_mono
        simp [insertRoute, List.lookup]
      · rw [hstep]
        exact hb y hy1

/-- Witness for C10: valid `"a"`/`"b"` before an invalid entry stay
registered though the call errors. -/
theorem C10_registration_not_atomic_witness :
    (registerRoutes []
        [⟨"a", [], [], .func .ok⟩, ⟨"b", [], [], .func .ok⟩, ⟨"", [], [], .func .ok⟩]).2
      ≠ none ∧
    (List.lookup "a" (registerRoutes []
        [⟨"a", [], [], .func .ok⟩, ⟨"b", [], [], .func .ok⟩,
          ⟨"", [], [], .func .ok⟩]).1).isSome := by
  have h := C10_registration_not_atomic []
    [⟨"a", [], [], .func .ok⟩, ⟨"b", [], [], .func .ok⟩] ⟨"", [], [], .func .ok⟩ []
    (by decide) (by decide)
  exact ⟨h.1, h.2 ⟨"a", [], [], .func .ok⟩ (by simp)⟩

/-- Claim C1 as stated is false: with a global middleware that invokes its
continuation twice, the double-continuation error is raised inside the chain
(the inner `next` returns it), yet the dispatch ends `Rejected` — not
`Errored` — and neither the on-error hooks nor the error handler run, even
though hooks are registered. -/
theorem C1_counterexample :
    (runSuffix 0 [[.callNext, .callNext]] ⟨-1, ⟨false, []⟩⟩).2
        = some .doubleContinuation ∧
    (dispatch ⟨[[.callNext, .callNext]], [("e", ⟨[], [], .ok⟩)], [.ok], [.ok], [.ok],
        false, false⟩ "e").outcome = .rejected ∧
    (dispatch ⟨[[.callNext, .callNext]], [("e", ⟨[], [], .ok⟩)], [.ok], [.ok], [.ok],
        false, false⟩ "e").outcome ≠ .errored ∧
    (dispatch ⟨[[.callNext, .callNext]], [("e", ⟨[], [], .ok⟩)], [.ok], [.ok], [.ok],
        false, false⟩ "e").onErrorHookRuns = 0 ∧
    (dispatch ⟨[[.callNext, .callNext]], [("e", ⟨[], [], .ok⟩)], [.ok], [.ok], [.ok],
        false, false⟩ "e").errorHandlerRan = false := by decide

/-- Claim C1 (amended): if a middleware invokes its continuation a second
time (here: the first middleware of the chain, given that the rest of the
chain returns without throwing), a `DoubleContinuationError` is raised
inside the chain, but the Middleware Chain Runner catches it and reports
`false`, so the dispatch of that message terminates in the `Rejected` state
(silent drop); the on-error hooks and the error handler do not run, and the
handler does not run. -/
theorem C1_double_continuation_rejected :
    ∀ (rest : List MW) (routes : List (String × Route)) (bm am oe : List HookSpec)
      (t : String),
      (runSuffix 1 rest ⟨0, ⟨false, []⟩⟩).2 = none →
      (runSuffix 0 ([.callNext, .callNext] :: rest) ⟨-1, ⟨false, []⟩⟩).2
          = some .doubleContinuation ∧
      (dispatch ⟨[.callNext, .callNext] :: rest, routes, bm, am, oe, false, false⟩
          t).outcome = .rejected ∧
      (dispatch ⟨[.callNext, .callNext] :: rest, routes, bm, am, oe, false, false⟩
          t).onErrorHookRuns = 0 ∧
      (dispatch ⟨[.callNext, .callNext] :: rest, routes, bm, am, oe, false, false⟩
          t).errorHandlerRan = false ∧
      (dispatch ⟨[.callNext, .callNext] :: rest, routes, bm, am, oe, false, false⟩
          t).handlerRan = false := by
  intro rest routes bm am oe t hok
  rcases h1 : runSuffix 1 rest ⟨0, ⟨false, []⟩⟩ with ⟨s', e⟩
  rw [h1] at hok
  simp only at hok
  subst hok
  have hge := runSuffix_ok_i_ge rest 1 ⟨0, ⟨false, []⟩⟩ (by rw [h1])
  rw [h1] at hge
  have hsecond : runSuffix 1 rest s' = (s', some .doubleContinuation) := by
    rw [runSuffix.eq_def, if_pos hge]
  have hchain : runSuffix 0 ([.callNext, .callNext] :: rest) ⟨-1, ⟨false, []⟩⟩
      = (s', some .doubleContinuation) := by
    rw [runSuffix.eq_def]
    rw [if_neg (by norm_num)]
    show runActs (fun s2 => runSuffix 1 rest s2) [.callNext, .callNext]
        ⟨(0 : Int), ⟨false, []⟩⟩ = _
    simp only [runActs, h1, hsecond]
  have hmw : runMiddleware ([.callNext, .callNext] :: rest) ⟨false, []⟩
      = (false, s'.ctx) := by
    unfold runMiddleware
    rw [hchain]
  refine ⟨by rw [hchain], ?_, ?_, ?_, ?_⟩
  all_goals
    rw [dispatch_eq_global_reject
      ⟨[.callNext, .callNext] :: rest, routes, bm, am, oe, false, false⟩ t rfl hmw]
    rfl

/-- Witness for C1 (amended) with an empty remaining chain. -/
theorem C1_double_continuation_rejected_witness :
    (runSuffix 0 [[.callNext, .callNext]] ⟨-1, ⟨false, []⟩⟩).2
        = some .doubleContinuation ∧
    (dispatch ⟨[[.callNext, .callNext]], [("x", ⟨[], [], .ok⟩)], [], [], [.ok],
        false, false⟩ "x").outcome = .rejected := by
  have h := C1_double_continuation_rejected [] [("x", ⟨[], [], .ok⟩)] [] [] [.ok] "x"
    (by decide)
  exact ⟨h.1, h.2.1⟩

/-- Claim C2 as stated is false: a middleware that calls `ctx.stop()` and
then still invokes its continuation makes the middleware at the next chain
index execute (its effect `7` is in the trace) even though `stop()` had
already been called; only the handler is reliably prevented. -/
theorem C2_counterexample :
    ((dispatch ⟨[[.stop, .callNext], [.log 7]], [("e", ⟨[], [], .ok⟩)], [], [], [],
        false, false⟩ "e").ctx).stopped = true ∧
    ((dispatch ⟨[[.stop, .callNext], [.log 7]], [("e", ⟨[], [], .ok⟩)], [], [], [],
        false, false⟩ "e").ctx).trace = [7] ∧
    (dispatch ⟨[[.stop, .callNext], [.log 7]], [("e", ⟨[], [], .ok⟩)], [], [], [],
        false, false⟩ "e").handlerRan = false := by decide

/-- Claim C2 (amended): once `stop()` has been called on a context the
handler never executes for that message (whenever the handler ran, the
final context is unstopped — and the flag is never cleared once set); a
chain run over a stopped context always reports rejection; but a middleware
at a later chain index still executes when the stopping middleware invokes
its continuation (the `[stop, next]` middleware lets `[log n]` run); and a
middleware that already started finishes its own post-continuation code
normally after the continuation returns. -/
theorem C2_stop_semantics :
    (∀ (sys : System) (t : String),
      (dispatch sys t).handlerRan = true → ((dispatch sys t).ctx).stopped = false) ∧
    (∀ (mws : List MW) (c : Ctx), c.stopped = true →
      ((runMiddleware mws c).2).stopped = true ∧ (runMiddleware mws c).1 = false) ∧
    (∀ (n : Nat) (c : Ctx),
      runMiddleware [[.stop, .callNext], [.log n]] c = (false, ⟨true, c.trace ++ [n]⟩)) ∧
    (∀ (n : Nat) (k : RunState → RunState × Option MWErr) (s s' : RunState),
      k s = (s', none) →
      runActs k [.callNext, .log n] s
        = (⟨s'.i, ⟨s'.ctx.stopped, s'.ctx.trace ++ [n]⟩⟩, none)) := by
  refine ⟨?_, ?_, ?_, ?_⟩
  · intro sys t h
    rcases hnt : sys.normalizeThrows with _ | _
    · rcases hm : runMiddleware sys.globalMiddleware ⟨false, []⟩ with ⟨acc, c1⟩
      cases acc
      · rw [dispatch_eq_global_reject sys t hnt hm] at h
        simp [baseResult] at h
      · rcases hl : List.lookup t sys.routes with _ | route
        · rw [dispatch_eq_no_route sys t hnt hm hl] at h
          simp [baseResult] at h
        · rcases hg : runGuards route.guards with ⟨gb, gn⟩
          cases gb
          · rw [dispatch_eq_guard_reject sys t hnt hm hl hg] at h
            simp [baseResult] at h
          · rcases hm2 : runMiddleware route.middleware c1 with ⟨acc2, c2⟩
            cases acc2
            · rw [dispatch_eq_route_mw_reject sys t hnt hm hl hg hm2] at h
              simp [baseResult] at h
            · have hstop := runMiddleware_true_not_stopped route.middleware c1 c2 hm2
              rcases hh : route.handler with _ | _
              · rw [dispatch_eq_handler_ok sys t hnt hm hl hg hm2 hh]
                simpa [baseResult] using hstop
              · rw [dispatch_eq_handler_throw sys t hnt hm hl hg hm2 hh]
                simpa [baseResult] using hstop
    · rw [dispatch_eq_escaped sys t hnt] at h
      simp [baseResult] at h
  · intro mws c hc
    have h1 := runMiddleware_stopped_mono mws c hc
    exact ⟨h1, runMiddleware_stopped_rejects mws c h1⟩
  · intro n c
    rfl
  · intro n k s s' hk
    simp only [runActs, hk]

/-- Witness for C2 (amended). -/
theorem C2_stop_semantics_witness :
    ((dispatch ⟨[], [("e", ⟨[], [], .ok⟩)], [], [], [], false, false⟩ "e").ctx).stopped
        = false ∧
    ((runMiddleware [[.log 4]] ⟨true, []⟩).2).stopped = true ∧
    runActs (fun s2 => (s2, none)) [.callNext, .log 5] ⟨0, ⟨false, []⟩⟩
        = (⟨0, ⟨false, [5]⟩⟩, none) := by
  refine ⟨?_, ?_, ?_⟩
  · exact C2_stop_semantics.1 ⟨[], [("e", ⟨[], [], .ok⟩)], [], [], [], false, false⟩ "e"
      (by decide)
  · exact (C2_stop_semantics.2.1 [[.log 4]] ⟨true, []⟩ rfl).1
  · exact C2_stop_semantics.2.2.2 5 (fun s2 => (s2, none)) ⟨0, ⟨false, []⟩⟩ ⟨0, ⟨false, []⟩⟩
      rfl

/-- Claim C3 as stated is false: with a global middleware calling
`ctx.stop()`, the handler indeed never runs, but the registered
`afterMessage` hook runs zero times, not exactly once — the dispatcher
returns before line 326 (`runHooks('afterMessage', ctx)`), which only
executes after a successful handler invocation. -/
theorem C3_counterexample :
    (dispatch ⟨[[.stop]], [("e", ⟨[], [], .ok⟩)], [], [.ok], [], false, false⟩
        "e").handlerRan = false ∧
    (dispatch ⟨[[.stop]], [("e", ⟨[], [], .ok⟩)], [], [.ok], [], false, false⟩
        "e").afterHookRuns = 0 ∧
    (dispatch ⟨[[.stop]], [("e", ⟨[], [], .ok⟩)], [], [.ok], [], false, false⟩
        "e").afterHookRuns ≠ 1 := by decide

/-- Claim C3 (amended): when a global middleware stops the context, the
route handler is never invoked for that message and the `afterMessage`
hooks do not run at all (zero times): the message is rejected before the
after-message phase, which is reached only after the handler completes. -/
theorem C3_stop_skips_afterMessage :
    ∀ (sys : System) (t : String),
      sys.normalizeThrows = false →
      ((runMiddleware sys.globalMiddleware ⟨false, []⟩).2).stopped = true →
      (dispatch sys t).handlerRan = false ∧ (dispatch sys t).afterHookRuns = 0 ∧
        (dispatch sys t).outcome = .rejected := by
  intro sys t hn hstop
  have hrej := runMiddleware_stopped_rejects sys.globalMiddleware ⟨false, []⟩ hstop
  rcases hm : runMiddleware sys.globalMiddleware ⟨false, []⟩ with ⟨acc, c1⟩
  rw [hm] at hrej
  simp only at hrej
  subst hrej
  rw [dispatch_eq_global_reject sys t hn hm]
  exact ⟨rfl, rfl, rfl⟩

/-- Witness for C3 (amended). -/
theorem C3_stop_skips_afterMessage_witness :
    (dispatch ⟨[[.log 1, .stop]], [("x", ⟨[], [], .ok⟩)], [], [.ok, .ok], [], false, false⟩
        "x").handlerRan = false ∧
    (dispatch ⟨[[.log 1, .stop]], [("x", ⟨[], [], .ok⟩)], [], [.ok, .ok], [], false, false⟩
        "x").afterHookRuns = 0 := by
  have h := C3_stop_skips_afterMessage
    ⟨[[.log 1, .stop]], [("x", ⟨[], [], .ok⟩)], [], [.ok, .ok], [], false, false⟩ "x"
    rfl (by decide)
  exact ⟨h.1, h.2.1⟩

/-- Claim C6 as stated is false: two exceptions do escape the message
callback — one thrown by `transport.normalizePayload` inside
`createContext` (which runs before the `try`), and one thrown by the
configured error handler itself (invoked inside the `catch` with no further
protection).  In both runs the dispatch ends `escaped`, not `Errored`. -/
theorem C6_counterexample :
    (dispatch ⟨[], [("e", ⟨[], [], .throwE⟩)], [], [], [.ok], false, true⟩ "e").outcome
        = .escaped ∧
    (dispatch ⟨[], [("e", ⟨[], [], .ok⟩)], [], [], [], true, false⟩ "e").outcome
        = .escaped := by decide

/-- Claim C6 (amended): provided context construction does not throw and
the configured error handler does not throw, no exception propagates out of
the dispatcher's message callback: every run ends `Done`, `Rejected` or
`Errored` — and whenever it ends `Errored`, the on-error hooks all ran and
the error handler was invoked, leaving the system ready for the next
message. -/
theorem C6_no_exception_escapes :
    ∀ (sys : System) (t : String),
      sys.normalizeThrows = false → sys.errorHandlerThrows = false →
      (dispatch sys t).outcome ≠ .escaped ∧
      ((dispatch sys t).outcome = .errored →
        (dispatch sys t).onErrorHookRuns = runHooks sys.onErrorHooks ∧
        (dispatch sys t).errorHandlerRan = true) := by
  intro sys t hn he
  rcases hm : runMiddleware sys.globalMiddleware ⟨false, []⟩ with ⟨acc, c1⟩
  cases acc
  · rw [dispatch_eq_global_reject sys t hn hm]
    exact ⟨by simp [baseResult], by simp [baseResult]⟩
  · rcases hl : List.lookup t sys.routes with _ | route
    · rw [dispatch_eq_no_route sys t hn hm hl]
      exact ⟨by simp [baseResult], by simp [baseResult]⟩
    · rcases hg : runGuards route.guards with ⟨gb, gn⟩
      cases gb
      · rw [dispatch_eq_guard_reject sys t hn hm hl hg]
        exact ⟨by simp [baseResult], by simp [baseResult]⟩
      · rcases hm2 : runMiddleware route.middleware c1 with ⟨acc2, c2⟩
        cases acc2
        · rw [dispatch_eq_route_mw_reject sys t hn hm hl hg hm2]
          exact ⟨by simp [baseResult], by simp [baseResult]⟩
        · rcases hh : route.handler with _ | _
          · rw [dispatch_eq_handler_ok sys t hn hm hl hg hm2 hh]
            exact ⟨by simp [baseResult], by simp [baseResult]⟩
          · rw [dispatch_eq_handler_throw sys t hn hm hl hg hm2 hh, he]
            exact ⟨by simp [baseResult], fun _ => ⟨rfl, rfl⟩⟩

/-- Witness for C6 (amended): a throwing handler with a non-throwing error
handler does not escape. -/
theorem C6_no_exception_escapes_witness :
    (dispatch ⟨[], [("e", ⟨[], [], .throwE⟩)], [], [], [.ok], false, false⟩ "e").outcome
      ≠ .escaped :=
  (C6_no_exception_escapes ⟨[], [("e", ⟨[], [], .throwE⟩)], [], [], [.ok], false, false⟩
    "e" rfl rfl).1

/-- Running the loop from cursor 1 over `hd :: post` with a pure tail visits
exactly `post` (the element now at position 0 — `hd` — is behind the cursor
and is not visited), appends its logs, and finishes. -/
theorem emitGo_pure_tail (hd : Listener) (post : List Listener) (tr : List Nat) (f : Nat)
    (hf : post.length < f) (hp : ∀ p ∈ post, isPureActs p.acts = true) :
    emitGo f 1 (hd :: post) tr = (hd :: post, tr ++ flatLogs post, none) := by
  have hpure : ∀ j (hj : j < (hd :: post).length), 1 ≤ j → j < 1 + post.length →
      isPureActs ((hd :: post).get ⟨j, hj⟩).acts = true := by
    intro j hj h1 h2
    obtain ⟨jj, rfl⟩ : ∃ jj, j = jj + 1 := ⟨j - 1, by omega⟩
    have hjj : jj < post.length := by simpa using hj
    simp only [List.get_eq_getElem, List.getElem_cons_succ]
    exact hp _ (List.getElem_mem hjj)
  have hbase : emitGo (2 + post.length) 1 (hd :: post) tr
      = (hd :: post, tr ++ flatLogs post, none) := by
    rw [emitGo_pure_walk post.length 2 1 (hd :: post) tr
      (by simp only [List.length_cons]; omega) hpure]
    have hidx : ¬(1 + post.length < (hd :: post).length) := by
      simp only [List.length_cons]
      omega
    show emitGo (1 + 1) (1 + post.length) (hd :: post) _ = _
    simp only [emitGo]
    rw [dif_neg hidx]
    simp [List.take_length]
  calc emitGo f 1 (hd :: post) tr
      = emitGo (2 + post.length) 1 (hd :: post) tr :=
        emitGo_fuel_irrelevant f (2 + post.length) 1 (hd :: post) tr
          (by simp only [List.length_cons]; omega) (by simp only [List.length_cons]; omega)
    _ = (hd :: post, tr ++ flatLogs post, none) := hbase

/-- Claim C4 as stated is false: with a first listener that throws, the
exception is neither caught nor logged by `internalEmit` — it propagates out
of the emission — and the remaining registered listener is never invoked
(its log is absent from the trace). -/
theorem C4_counterexample :
    internalEmit [⟨0, [.throwE]⟩, ⟨1, [.log 1]⟩]
        = ([⟨0, [.throwE]⟩, ⟨1, [.log 1]⟩], [], some ()) ∧
    (1 : Nat) ∉ (internalEmit [⟨0, [.throwE]⟩, ⟨1, [.log 1]⟩]).2.1 ∧
    (internalEmit [⟨0, [.throwE]⟩, ⟨1, [.log 1]⟩]).2.2 ≠ none := by decide

/-- Claim C4 (amended): `emit` invokes the registered callbacks
synchronously in registration order — when no callback throws or
unregisters, every callback runs and their effects appear in registration
order — but an exception thrown by one callback propagates out of the
emission and prevents the remaining callbacks from running: with a pure
prefix `pre` followed by a throwing listener, exactly the prefix's effects
are traced and the loop ends with the exception. -/
theorem C4_emit_order_and_throw :
    (∀ reg : List Listener, (∀ l ∈ reg, isPureActs l.acts = true) →
      internalEmit reg = (reg, flatLogs reg, none)) ∧
    (∀ (pre : List Listener) (l : Listener) (post : List Listener) (rest2 : List LAct),
      (∀ x ∈ pre, isPureActs x.acts = true) → l.acts = .throwE :: rest2 →
      internalEmit (pre ++ l :: post) = (pre ++ l :: post, flatLogs pre, some ())) := by
  constructor
  · intro reg hp
    unfold internalEmit
    rw [Nat.add_comm]
    rw [emitGo_pure_walk reg.length 1 0 reg [] (by simp)
      (fun j hj _ _ => hp (reg.get ⟨j, hj⟩) (List.get_mem reg j hj))]
    show emitGo (0 + 1) (0 + reg.length) reg _ = _
    simp only [emitGo]
    rw [dif_neg (by simp)]
    simp [List.take_length]
  · intro pre l post rest2 hp hacts
    have hfuel : (pre ++ l :: post).length + 1 = (post.length + 2) + pre.length := by
      simp [List.length_append]
      omega
    have hpure : ∀ j (hj : j < (pre ++ l :: post).length), 0 ≤ j → j < 0 + pre.length →
        isPureActs ((pre ++ l :: post).get ⟨j, hj⟩).acts = true := by
      intro j hj _ h2
      have hjp : j < pre.length := by omega
      simp only [List.get_eq_getElem, List.getElem_append_left hjp]
      exact hp _ (List.getElem_mem hjp)
    unfold internalEmit
    rw [hfuel, emitGo_pure_walk pre.length (post.length + 2) 0 (pre ++ l :: post) []
      (by simp) hpure]
    have hidx : pre.length < (pre ++ l :: post).length := by simp
    have hgetl : (pre ++ l :: post).get ⟨pre.length, hidx⟩ = l := by
      simp only [List.get_eq_getElem]
      rw [List.getElem_append_right (Nat.le_refl pre.length)]
      simp
    show emitGo ((post.length + 1) + 1) (0 + pre.length) (pre ++ l :: post) _ = _
    simp only [emitGo, Nat.zero_add]
    rw [dif_pos hidx]
    simp only [hgetl, hacts, runLActs]
    simp [List.nil_append, List.drop_zero, List.take_left]

/-- Witness for C4 (amended): two pure listeners both run in order; a
throwing listener after a pure one stops the emission with the exception. -/
theorem C4_emit_order_and_throw_witness :
    internalEmit [⟨0, [.log 3]⟩, ⟨1, [.log 4]⟩]
        = ([⟨0, [.log 3]⟩, ⟨1, [.log 4]⟩], [3, 4], none) ∧
    internalEmit [⟨0, [.log 3]⟩, ⟨1, [.throwE]⟩, ⟨2, [.log 5]⟩]
        = ([⟨0, [.log 3]⟩, ⟨1, [.throwE]⟩, ⟨2, [.log 5]⟩], [3], some ()) := by
  constructor
  · have h := C4_emit_order_and_throw.1 [⟨0, [.log 3]⟩, ⟨1, [.log 4]⟩] (by decide)
    simpa [flatLogs, logsOf] using h
  · have h := C4_emit_order_and_throw.2 [⟨0, [.log 3]⟩] ⟨1, [.throwE]⟩ [⟨2, [.log 5]⟩] []
      (by decide) rfl
    simpa [flatLogs, logsOf] using h

/-- Claim C5 as stated is false: with listeners `0, 1, 2` where listener `0`
removes itself via `off` during its own callback, the emission skips
listener `1` — which is still registered afterwards and was never removed —
because the array shifted under the loop's cursor; so the emission does not
invoke "exactly the listeners registered at the start", and a
still-registered listener misses the emission. -/
theorem C5_counterexample :
    internalEmit [⟨0, [.log 0, .off 0]⟩, ⟨1, [.log 1]⟩, ⟨2, [.log 2]⟩]
        = ([⟨1, [.log 1]⟩, ⟨2, [.log 2]⟩], [0, 2], none) ∧
    (⟨1, [.log 1]⟩ : Listener)
        ∈ (internalEmit [⟨0, [.log 0, .off 0]⟩, ⟨1, [.log 1]⟩, ⟨2, [.log 2]⟩]).1 ∧
    (1 : Nat) ∉ (internalEmit [⟨0, [.log 0, .off 0]⟩, ⟨1, [.log 1]⟩, ⟨2, [.log 2]⟩]).2.1 := by
  decide

/-- Claim C5 (amended): the emission iterates the live listener array by
cursor.  When the running listener removes a listener at a *later* position,
the removed listener does not receive the current emission, every other
still-registered listener still runs, and the removed listener is excluded
from future emissions (a later `emit` over the resulting registry yields the
same listeners and effects).  But when the running listener removes a
listener at or before the cursor (here: itself), the array shifts and the
next still-registered listener is skipped even though it was never removed. -/
theorem C5_off_during_emit :
    (∀ (x y : Nat) (post : List Listener),
      (∀ p ∈ post, isPureActs p.acts = true) → (∀ p ∈ post, p.id ≠ 1) →
      internalEmit (⟨0, [.log x, .off 1]⟩ :: ⟨1, [.log y]⟩ :: post)
          = (⟨0, [.log x, .off 1]⟩ :: post, x :: flatLogs post, none) ∧
      internalEmit (⟨0, [.log x, .off 1]⟩ :: post)
          = (⟨0, [.log x, .off 1]⟩ :: post, x :: flatLogs post, none)) ∧
    (∀ (x y : Nat) (post : List Listener),
      (∀ p ∈ post, isPureActs p.acts = true) →
      internalEmit (⟨0, [.log x, .off 0]⟩ :: ⟨1, [.log y]⟩ :: post)
          = (⟨1, [.log y]⟩ :: post, x :: flatLogs post, none)) := by
  constructor
  · intro x y post hp hid
    constructor
    · have h1 : internalEmit (⟨0, [.log x, .off 1]⟩ :: ⟨1, [.log y]⟩ :: post)
          = emitGo (post.length + 2) 1 (⟨0, [.log x, .off 1]⟩ :: post) [x] := by
        show emitGo ((post.length + 2) + 1) 0 _ [] = _
        simp only [emitGo]
        rw [dif_pos (by simp)]
        simp [runLActs, removeFirst]
      rw [h1, emitGo_pure_tail _ post [x] (post.length + 2) (by omega) hp]
      simp
    · have h1 : internalEmit (⟨0, [.log x, .off 1]⟩ :: post)
          = emitGo (post.length + 1) 1 (⟨0, [.log x, .off 1]⟩ :: post) [x] := by
        show emitGo ((post.length + 1) + 1) 0 _ [] = _
        simp only [emitGo]
        rw [dif_pos (by simp)]
        simp only [runLActs, List.get_eq_getElem, List.getElem_cons_zero, List.nil_append]
        rw [show removeFirst 1 (⟨0, [.log x, .off 1]⟩ :: post)
            = ⟨0, [.log x, .off 1]⟩ :: post from by
          simp only [removeFirst]
          rw [if_neg (by decide), removeFirst_not_mem 1 post hid]]
      rw [h1, emitGo_pure_tail _ post [x] (post.length + 1) (by omega) hp]
      simp
  · intro x y post hp
    have h1 : internalEmit (⟨0, [.log x, .off 0]⟩ :: ⟨1, [.log y]⟩ :: post)
        = emitGo (post.length + 2) 1 (⟨1, [.log y]⟩ :: post) [x] := by
      show emitGo ((post.length + 2) + 1) 0 _ [] = _
      simp only [emitGo]
      rw [dif_pos (by simp)]
      simp [runLActs, removeFirst]
    rw [h1, emitGo_pure_tail _ post [x] (post.length + 2) (by omega) hp]
    simp

/-- Witness for C5 (amended) with one pure listener after the removed one. -/
theorem C5_off_during_emit_witness :
    internalEmit [⟨0, [.log 6, .off 1]⟩, ⟨1, [.log 7]⟩, ⟨2, [.log 9]⟩]
        = ([⟨0, [.log 6, .off 1]⟩, ⟨2, [.log 9]⟩], [6, 9], none) ∧
    internalEmit [⟨0, [.log 6, .off 0]⟩, ⟨1, [.log 7]⟩, ⟨2, [.log 9]⟩]
        = ([⟨1, [.log 7]⟩, ⟨2, [.log 9]⟩], [6, 9], none) := by
  constructor
  · have h := (C5_off_during_emit.1 6 7 [⟨2, [.log 9]⟩] (by decide) (by decide)).1
    simpa [flatLogs, logsOf] using h
  · have h := C5_off_during_emit.2 6 7 [⟨2, [.log 9]⟩] (by decide)
    simpa [flatLogs, logsOf] using h

end RealtimeSpec
